import Mathlib

/-!
Shallow embedding of the microlab firmware core
(src/src/ArrayDriver.cpp, src/src/UartCommandHandler.cpp and the
corresponding headers) together with proofs about the frozen claims.

Conventions of the embedding:
* C strings are modelled as `List Char` (the bytes of the line, without the
  terminating NUL).  `strchr`/`strstr` return the suffix starting at the
  first occurrence, mirroring the C pointer result.
* machine integers are modelled as `Int`/`Nat`; every value that flows into
  them in the modelled paths is range-checked by the code itself before use,
  so no wrap-around arises on those paths.
* hardware effects (the BSRR crosspoint write issued by `setRowColAtomic`
  and the `HAL_Delay` suspensions) are recorded as an explicit event trace.
* the member array `electrodeMap` is not initialised by the constructor
  before the JSON loaders run, so the constructor model takes the
  indeterminate initial contents of that array as a parameter.
-/

/-! ## C character and string primitives -/

/-- C `isspace` on the execution character set. -/
def isspaceC (c : Char) : Bool :=
  c = ' ' || c = '\t' || c = '\n' || c = '\x0b' || c = '\x0c' || c = '\r'

/-- C `isdigit`. -/
def isdigitC (c : Char) : Bool :=
  '0' ≤ c && c ≤ '9'

/-- Accumulating digit loop shared by `atoi` and `parseJSONInt`:
`value = value * 10 + (*str - '0')` while digits last. -/
def digitsAcc : List Char → Int → Int
  | [], acc => acc
  | c :: cs, acc =>
    if isdigitC c then digitsAcc cs (acc * 10 + ((c.toNat : Int) - 48)) else acc

/-- C `atoi`: skip whitespace, optional sign, then digits. -/
def atoiC (s : List Char) : Int :=
  match s.dropWhile (fun c => isspaceC c) with
  | '-' :: t => - digitsAcc t 0
  | '+' :: t => digitsAcc t 0
  | t => digitsAcc t 0

/-- C `strchr`: suffix of the string starting at the first occurrence of
the character, or `none`. -/
def strchrC : List Char → Char → Option (List Char)
  | [], _ => none
  | a :: as, c => if a = c then some (a :: as) else strchrC as c

/-- C `strstr`: suffix of the haystack starting at the first occurrence of
the pattern, or `none`. -/
def strstrC : List Char → List Char → Option (List Char)
  | [], pat => if pat.isPrefixOf ([] : List Char) then some [] else none
  | a :: t, pat =>
    if pat.isPrefixOf (a :: t) then some (a :: t) else strstrC t pat

/-! ## ArrayDriver data model (ArrayDriver.h) -/

/-- Matrix dimension `NUM_ROWS`. -/
def NUM_ROWS : Nat := 10
/-- Matrix dimension `NUM_COLS`. -/
def NUM_COLS : Nat := 14
/-- Electrode count `NUM_ELECTRODES`. -/
def NUM_ELECTRODES : Nat := 140

/-- One entry of the electrode-number to row/col table
(`ElectrodeMapping_t`). -/
structure ElectrodeMapping where
  row : Nat
  col : Nat
deriving DecidableEq, Repr

/-- One sequence step (`ElectrodeStep_t`). -/
structure ElectrodeStep_t where
  row : Nat
  col : Nat
  state : Bool
  duration_ms : Nat
deriving DecidableEq, Repr

/-- A sequence (`ElectrodeSequence_t`).  The `steps` pointer is modelled as
an `Option` (`none` = NULL); `numSteps` is kept separate from the list
length exactly as in the C struct. -/
structure ElectrodeSequence_t where
  steps : Option (List ElectrodeStep_t)
  numSteps : Nat
  cycleCount : Nat
  cycleDelay_ms : Nat
deriving DecidableEq, Repr

/-- Observable hardware effect: a crosspoint write issued through
`setRowColAtomic`, or a `HAL_Delay` suspension. -/
inductive DriverEvent where
  | write (row col : Nat) (state : Bool)
  | delay (ms : Nat)
deriving DecidableEq, Repr

/-- True exactly on write events. -/
def DriverEvent.isWrite : DriverEvent → Bool
  | .write _ _ _ => true
  | .delay _ => false

/-- True exactly on writes that switch an electrode off. -/
def DriverEvent.isOffWrite : DriverEvent → Bool
  | .write _ _ b => !b
  | .delay _ => false

/-- The mutable state of one `ArrayDriver` instance.  `electrodeMap` is the
140-entry member array, index `i` holding the entry for electrode `i + 1`. -/
structure ArrayDriver where
  electrodeState : Nat → Nat → Bool
  sequenceRunning : Bool
  currentStep : Nat
  stepStartTime : Nat
  currentSequence : Option ElectrodeSequence_t
  electrodeMap : List ElectrodeMapping

namespace ArrayDriver

/-- ArrayDriver::setElectrode — bounds-checked single write; the hardware
write happens first, then the state array is updated. -/
def setElectrode (s : ArrayDriver) (row col : Nat) (state : Bool) :
    ArrayDriver × List DriverEvent :=
  if row ≥ NUM_ROWS || col ≥ NUM_COLS then
    (s, [])
  else
    ({ s with electrodeState := fun r c =>
        if r = row && c = col then state else s.electrodeState r c },
     [DriverEvent.write row col state])

/-- ArrayDriver::getRowColFromElectrode — range check then table lookup. -/
def getRowColFromElectrode (s : ArrayDriver) (electrodeNum : Nat) :
    Option (Nat × Nat) :=
  if electrodeNum < 1 || electrodeNum > NUM_ELECTRODES then
    none
  else
    let e := s.electrodeMap.getD (electrodeNum - 1) { row := 0, col := 0 }
    some (e.row, e.col)

/-- ArrayDriver::setElectrodeByNumber. -/
def setElectrodeByNumber (s : ArrayDriver) (electrodeNum : Nat) (state : Bool) :
    ArrayDriver × List DriverEvent :=
  match s.getRowColFromElectrode electrodeNum with
  | some (row, col) => s.setElectrode row col state
  | none => (s, [])

/-- ArrayDriver::setAllElectrodesLow — one bulk hardware transition, then a
bulk state update. -/
def setAllElectrodesLow (s : ArrayDriver) : ArrayDriver :=
  { s with electrodeState := fun _ _ => false }

/-- ArrayDriver::setAllElectrodesHigh. -/
def setAllElectrodesHigh (s : ArrayDriver) : ArrayDriver :=
  { s with electrodeState := fun _ _ => true }

/-- ArrayDriver::setRowElectrodes — per-electrode writes over one row. -/
def setRowElectrodes (s : ArrayDriver) (row : Nat) (state : Bool) :
    ArrayDriver × List DriverEvent :=
  if row ≥ NUM_ROWS then (s, [])
  else
    (List.range NUM_COLS).foldl
      (fun p col =>
        let q := setElectrode p.1 row col state
        (q.1, p.2 ++ q.2))
      (s, [])

/-- ArrayDriver::setColElectrodes. -/
def setColElectrodes (s : ArrayDriver) (col : Nat) (state : Bool) :
    ArrayDriver × List DriverEvent :=
  if col ≥ NUM_COLS then (s, [])
  else
    (List.range NUM_ROWS).foldl
      (fun p row =>
        let q := setElectrode p.1 row col state
        (q.1, p.2 ++ q.2))
      (s, [])

/-- ArrayDriver::getElectrodeState — bounds-checked read, false when out of
range. -/
def getElectrodeState (s : ArrayDriver) (row col : Nat) : Bool :=
  if row ≥ NUM_ROWS || col ≥ NUM_COLS then false
  else s.electrodeState row col

/-- ArrayDriver::getPattern — the cell the caller array receives at an
in-range (row, col). -/
def getPattern (s : ArrayDriver) (row col : Nat) : Bool :=
  s.electrodeState row col

/-- Inner loop of ArrayDriver::executeSequence: apply each step in order,
holding each state for the step duration. -/
def runSteps (s : ArrayDriver) : List ElectrodeStep_t → ArrayDriver × List DriverEvent
  | [] => (s, [])
  | st :: rest =>
    let q := setElectrode s st.row st.col st.state
    let r := runSteps q.1 rest
    (r.1, q.2 ++ DriverEvent.delay st.duration_ms :: r.2)

/-- Outer loop of ArrayDriver::executeSequence: run the step list once per
cycle, with the inter-cycle delay after every cycle except the last
(`cycle < cycleCount - 1`). -/
def runCycles (s : ArrayDriver) (steps : List ElectrodeStep_t)
    (cycleDelay : Nat) : Nat → ArrayDriver × List DriverEvent
  | 0 => (s, [])
  | r + 1 =>
    let q := runSteps s steps
    let rec0 := runCycles q.1 steps cycleDelay r
    (rec0.1,
     q.2 ++ (if r = 0 then [] else [DriverEvent.delay cycleDelay]) ++ rec0.2)

/-- ArrayDriver::executeSequence — blocking execution.  A NULL sequence or
NULL step pointer is a no-op; the loop reads `steps[0..numSteps)`. -/
def executeSequence (s : ArrayDriver) (seq : ElectrodeSequence_t) :
    ArrayDriver × List DriverEvent :=
  match seq.steps with
  | none => (s, [])
  | some steps => runCycles s (steps.take seq.numSteps) seq.cycleDelay_ms seq.cycleCount

/-- ArrayDriver::executeSequenceAsync — records the sequence and enters the
running state without performing any actuation; `now` is `HAL_GetTick()`. -/
def executeSequenceAsync (s : ArrayDriver) (seq : ElectrodeSequence_t)
    (now : Nat) : ArrayDriver :=
  match seq.steps with
  | none => s
  | some _ =>
    { s with currentSequence := some seq
             sequenceRunning := true
             currentStep := 0
             stepStartTime := now }

/-- ArrayDriver::isSequenceRunning. -/
def isSequenceRunning (s : ArrayDriver) : Bool :=
  s.sequenceRunning

/-- ArrayDriver::stopSequence. -/
def stopSequence (s : ArrayDriver) : ArrayDriver :=
  { s with sequenceRunning := false
           currentSequence := none
           currentStep := 0 }

/-- ArrayDriver::runElectrodeTest — sequential 100 ms pulse of electrodes
1..140. -/
def runElectrodeTest (s : ArrayDriver) : ArrayDriver × List DriverEvent :=
  (List.range NUM_ELECTRODES).foldl
    (fun p i =>
      let q := setElectrodeByNumber p.1 (i + 1) true
      let r := setElectrodeByNumber q.1 (i + 1) false
      (r.1, p.2 ++ q.2 ++ DriverEvent.delay 100 :: r.2))
    (s, [])

/-! ### JSON scanning and the constructor (ArrayDriver.cpp) -/

/-- ArrayDriver::parseJSONInt — skip whitespace, optional minus sign, then
digits. -/
def parseJSONInt (s : List Char) : Int :=
  match s.dropWhile (fun c => isspaceC c) with
  | '-' :: t => - digitsAcc t 0
  | t => digitsAcc t 0

/-- ArrayDriver::findJSONValue — search for the quoted key, then the colon
after it, then skip whitespace; returns the suffix at the value. -/
def findJSONValue (json key : List Char) : Option (List Char) :=
  let searchStr : List Char := '"' :: key ++ ['"']
  match strstrC json searchStr with
  | none => none
  | some keyPos =>
    match strchrC keyPos ':' with
    | none => none
    | some colonSuffix =>
      some ((colonSuffix.drop 1).dropWhile (fun c => isspaceC c))

/-- Loop body of ArrayDriver::parseElectrodeMapJSON for the electrode at
index `i` (electrode number `i + 1`): look its quoted number up and, when
the value is a pin in range, store the provisional row/col encoding of
that pin.  The second argument to `findJSONValue` is `keyStr + 1`, i.e.
the key with its leading quote removed but the trailing quote still
attached, exactly as in the C call. -/
def emEntryStep (openBrace : List Char) (acc : List ElectrodeMapping)
    (i : Nat) : List ElectrodeMapping :=
  let electrode := i + 1
  let keyStr : List Char := '"' :: (toString electrode).data ++ ['"']
  match strstrC openBrace keyStr with
  | none => acc
  | some keyPos =>
    match findJSONValue keyPos (keyStr.drop 1) with
    | none => acc
    | some valuePos =>
      let pciePin := parseJSONInt valuePos
      if 0 < pciePin && pciePin ≤ (NUM_ELECTRODES : Int) then
        acc.set i
          { row := (pciePin.toNat - 1) / NUM_COLS
            col := (pciePin.toNat - 1) % NUM_COLS }
      else acc

/-- ArrayDriver::parseElectrodeMapJSON — locate the "mapping" object, then
run the per-electrode loop. -/
def parseElectrodeMapJSON (m : List ElectrodeMapping) (jsonData : List Char) :
    List ElectrodeMapping × Bool :=
  match strstrC jsonData ("\"mapping\"".data) with
  | none => (m, false)
  | some mappingStart =>
    match strchrC mappingStart '{' with
    | none => (m, false)
    | some openBrace =>
      ((List.range NUM_ELECTRODES).foldl (emEntryStep openBrace) m, true)

/-- Inner loop body of ArrayDriver::parsePinMapJSON for one "row,col" key:
when the key is present with a pin value in range, record that pin's row
and column in the two pin tables. -/
def pmKeyStep (openBrace : List Char) (row : Nat)
    (pc : List Nat × List Nat) (col : Nat) : List Nat × List Nat :=
  let keyStr : List Char :=
    '"' :: (toString row).data ++ ',' :: (toString col).data ++ ['"']
  match strstrC openBrace keyStr with
  | none => pc
  | some keyPos =>
    match strchrC keyPos ':' with
    | none => pc
    | some colonSuffix =>
      let pciePin := parseJSONInt (colonSuffix.drop 1)
      if 0 < pciePin && pciePin ≤ (NUM_ELECTRODES : Int) then
        (pc.1.set (pciePin.toNat - 1) row,
         pc.2.set (pciePin.toNat - 1) col)
      else pc

/-- Final loop body of ArrayDriver::parsePinMapJSON for the electrode at
index `i`: reinterpret the provisional entry as a pin number and, when it
is in range, replace the entry by that pin's row/col from the pin tables;
otherwise leave the entry untouched. -/
def pmFinalStep (pcie : List Nat × List Nat) (acc : List ElectrodeMapping)
    (i : Nat) : List ElectrodeMapping :=
  let tempRow := (acc.getD i { row := 0, col := 0 }).row
  let tempCol := (acc.getD i { row := 0, col := 0 }).col
  let pciePin := tempRow * NUM_COLS + tempCol + 1
  if 0 < pciePin && pciePin ≤ NUM_ELECTRODES then
    acc.set i
      { row := pcie.1.getD (pciePin - 1) 0
        col := pcie.2.getD (pciePin - 1) 0 }
  else acc

/-- ArrayDriver::parsePinMapJSON — locate the "electrodes" object, build
the pin→(row,col) tables (zero-initialised), then rewrite every
electrodeMap entry through them; an entry whose provisional pin falls
outside 1..140 is left untouched. -/
def parsePinMapJSON (m : List ElectrodeMapping) (jsonData : List Char) :
    List ElectrodeMapping × Bool :=
  match strstrC jsonData ("\"electrodes\"".data) with
  | none => (m, false)
  | some electrodesStart =>
    match strchrC electrodesStart '{' with
    | none => (m, false)
    | some openBrace =>
      let pcie0 : List Nat × List Nat :=
        (List.replicate NUM_ELECTRODES 0, List.replicate NUM_ELECTRODES 0)
      let pcie := (List.range NUM_ROWS).foldl
        (fun pr row => (List.range NUM_COLS).foldl (pmKeyStep openBrace row) pr)
        pcie0
      ((List.range NUM_ELECTRODES).foldl (pmFinalStep pcie) m, true)

/-- ArrayDriver::ArrayDriver — the constructor.  `emJson`/`pmJson` are the
contents of ElectrodeMap.json and PinMap.json (`none` = the file could not
be read).  `initMap` is the indeterminate initial content of the
`electrodeMap` member array, which the constructor never initialises
before the loaders run.  Only when one of the loads reports failure is the
whole table overwritten with the default 1:1 mapping. -/
def construct (emJson pmJson : Option (List Char))
    (initMap : List ElectrodeMapping) : ArrayDriver :=
  let r1 := match emJson with
    | none => (initMap, false)
    | some j => parseElectrodeMapJSON initMap j
  let r2 := match pmJson with
    | none => (r1.1, false)
    | some j => parsePinMapJSON r1.1 j
  let finalMap :=
    if r1.2 && r2.2 then r2.1
    else (List.range NUM_ELECTRODES).map
      (fun i => { row := i / NUM_COLS, col := i % NUM_COLS })
  { electrodeState := fun _ _ => false
    sequenceRunning := false
    currentStep := 0
    stepStartTime := 0
    currentSequence := none
    electrodeMap := finalMap }

end ArrayDriver

/-- A driver constructed with both mapping files absent: the fallback
default 1:1 mapping is active and every electrode is low. -/
def initialDriver : ArrayDriver :=
  ArrayDriver.construct none none
    (List.replicate NUM_ELECTRODES { row := 0, col := 0 })

/-! ## UART command handler (UartCommandHandler.cpp) -/

/-- Buffer cap `UART_CMD_BUFFER_SIZE`. -/
def UART_CMD_BUFFER_SIZE : Nat := 2048
/-- Step-list cap `MAX_STEPS`. -/
def MAX_STEPS : Nat := 256

namespace UartCommandHandler

/-- Result of handling one command line: the driver afterwards, the UART
replies emitted, and the hardware event trace produced. -/
structure HOut where
  drv : ArrayDriver
  resps : List String
  evs : List DriverEvent

/-- UartCommandHandler::sendError — the wire text produced for an error. -/
def errText (msg : String) : String :=
  "ERROR: " ++ msg ++ "\n"

/-- Shorthand for a rejection: one error reply, no actuation, driver
untouched. -/
def errOut (drv : ArrayDriver) (msg : String) : HOut :=
  { drv := drv, resps := [errText msg], evs := [] }

/-- Body of UartCommandHandler::executeSequence — build the step list
(every step with `state = true`), failing at the first electrode number
the driver cannot resolve. -/
def buildSteps (drv : ArrayDriver) : List (Int × Int) → Option (List ElectrodeStep_t)
  | [] => some []
  | (id, dur) :: rest =>
    match drv.getRowColFromElectrode id.toNat with
    | none => none
    | some (row, col) =>
      match buildSteps drv rest with
      | none => none
      | some steps =>
        some ({ row := row, col := col, state := true,
                duration_ms := dur.toNat } :: steps)

/-- UartCommandHandler::executeSequence — resolve every parsed step, then
run the configured sequence through ArrayDriver::executeSequence
(blocking). -/
def handlerExecuteSequence (drv : ArrayDriver) (cycleReps cycleDelay : Int)
    (idsDurs : List (Int × Int)) : HOut :=
  match buildSteps drv idsDurs with
  | none => errOut drv "Invalid electrode number"
  | some steps =>
    let seq : ElectrodeSequence_t :=
      { steps := some steps
        numSteps := steps.length
        cycleCount := cycleReps.toNat
        cycleDelay_ms := cycleDelay.toNat }
    let r := drv.executeSequence seq
    { drv := r.1
      resps := ["Executing sequence...\n", "Sequence complete\n"]
      evs := r.2 }

/-- Step-list loop of UartCommandHandler::parseElectrodeCommand.
`i` is the C loop index, `remaining = numSteps - i` the steps still to
parse; the `END` marker is accepted exactly when it follows the last step
(`i + 1 == numSteps`, i.e. `remaining = 1`).  On success the caller
also sends `OK`. -/
def stepLoop (drv : ArrayDriver) (cycleReps cycleDelay : Int) :
    Nat → Nat → List Char → List (Int × Int) → HOut
  | _, 0, _, _ => errOut drv "Missing END marker"
  | i, remaining + 1, ptr, acc =>
    let id := atoiC ptr
    if id < 1 || id > 140 then
      errOut drv ("Invalid electrode ID at step " ++ toString i ++ " (1-140)")
    else
      match strchrC ptr ',' with
      | none => errOut drv "Missing comma in step"
      | some pComma =>
        let ptr2 := pComma.drop 1
        let dur := atoiC ptr2
        if dur < 0 then
          errOut drv ("Invalid duration at step " ++ toString i)
        else
          match strchrC ptr2 '|' with
          | none => errOut drv "Missing delimiter"
          | some pPipe =>
            let ptr3 := pPipe.drop 1
            if ("END".data).isPrefixOf ptr3 then
              if remaining = 0 then
                let r := handlerExecuteSequence drv cycleReps cycleDelay
                  (acc ++ [(id, dur)])
                { r with resps := r.resps ++ ["OK\n"] }
              else errOut drv "Early END marker"
            else
              stepLoop drv cycleReps cycleDelay (i + 1) remaining ptr3
                (acc ++ [(id, dur)])

/-- UartCommandHandler::parseElectrodeCommand — header validation for
`START|REPS|DELAY|STEPS|ID1,DUR1|...|END`, then the step loop. -/
def parseElectrodeCommand (drv : ArrayDriver) (cmd : List Char) : HOut :=
  if !("START|".data).isPrefixOf cmd then errOut drv "Invalid start"
  else
    let ptr := cmd.drop 6
    let cycleReps := atoiC ptr
    if cycleReps < 1 || cycleReps > 1000 then
      errOut drv "Invalid cycle repetitions (1-1000)"
    else
      match strchrC ptr '|' with
      | none => errOut drv "Missing delimiter after REPS"
      | some p1 =>
        let ptr := p1.drop 1
        let cycleDelay := atoiC ptr
        if cycleDelay < 0 then errOut drv "Invalid cycle delay"
        else
          match strchrC ptr '|' with
          | none => errOut drv "Missing delimiter after DELAY"
          | some p2 =>
            let ptr := p2.drop 1
            let numSteps := atoiC ptr
            if numSteps < 1 || numSteps > (MAX_STEPS : Int) then
              errOut drv ("Invalid steps count (1-" ++ toString MAX_STEPS ++ ")")
            else
              match strchrC ptr '|' with
              | none => errOut drv "Missing delimiter after STEPS"
              | some p3 =>
                stepLoop drv cycleReps cycleDelay 0 numSteps.toNat (p3.drop 1) []

/-- UartCommandHandler::parseSingleElectrodeCommand — `SET|ELECTRODE|STATE`. -/
def parseSingleElectrodeCommand (drv : ArrayDriver) (cmd : List Char) : HOut :=
  let ptr := cmd.drop 4
  let electrode := atoiC ptr
  if electrode < 1 || electrode > 140 then
    errOut drv "Invalid electrode (1-140)"
  else
    match strchrC ptr '|' with
    | none => errOut drv "Missing delimiter"
    | some p1 =>
      let ptr2 := p1.drop 1
      let state := atoiC ptr2
      if state ≠ 0 && state ≠ 1 then
        errOut drv "Invalid state (0=LOW, 1=HIGH)"
      else
        let r := drv.setElectrodeByNumber electrode.toNat (state = 1)
        { drv := r.1
          resps := ["Electrode " ++ toString electrode ++ " set to " ++
                      (if state = 0 then "LOW" else "HIGH") ++ "\n", "OK\n"]
          evs := r.2 }

/-- UartCommandHandler::parseAllElectrodesCommand — `ALL|STATE`. -/
def parseAllElectrodesCommand (drv : ArrayDriver) (cmd : List Char) : HOut :=
  let ptr := cmd.drop 4
  let state := atoiC ptr
  if state ≠ 0 && state ≠ 1 then
    errOut drv "Invalid state (0=LOW, 1=HIGH)"
  else if state = 1 then
    { drv := drv.setAllElectrodesHigh
      resps := ["All electrodes set to HIGH\n", "OK\n"], evs := [] }
  else
    { drv := drv.setAllElectrodesLow
      resps := ["All electrodes set to LOW\n", "OK\n"], evs := [] }

/-- UartCommandHandler::parseRowCommand — `ROW|ROW_NUM|STATE`. -/
def parseRowCommand (drv : ArrayDriver) (cmd : List Char) : HOut :=
  let ptr := cmd.drop 4
  let row := atoiC ptr
  if row < 0 || row > 9 then errOut drv "Invalid row (0-9)"
  else
    match strchrC ptr '|' with
    | none => errOut drv "Missing delimiter"
    | some p1 =>
      let ptr2 := p1.drop 1
      let state := atoiC ptr2
      if state ≠ 0 && state ≠ 1 then
        errOut drv "Invalid state (0=LOW, 1=HIGH)"
      else
        let r := drv.setRowElectrodes row.toNat (state = 1)
        { drv := r.1
          resps := ["Row " ++ toString row ++ " set to " ++
                      (if state = 0 then "LOW" else "HIGH") ++ "\n", "OK\n"]
          evs := r.2 }

/-- UartCommandHandler::parseColCommand — `COL|COL_NUM|STATE`. -/
def parseColCommand (drv : ArrayDriver) (cmd : List Char) : HOut :=
  let ptr := cmd.drop 4
  let col := atoiC ptr
  if col < 0 || col > 13 then errOut drv "Invalid column (0-13)"
  else
    match strchrC ptr '|' with
    | none => errOut drv "Missing delimiter"
    | some p1 =>
      let ptr2 := p1.drop 1
      let state := atoiC ptr2
      if state ≠ 0 && state ≠ 1 then
        errOut drv "Invalid state (0=LOW, 1=HIGH)"
      else
        let r := drv.setColElectrodes col.toNat (state = 1)
        { drv := r.1
          resps := ["Column " ++ toString col ++ " set to " ++
                      (if state = 0 then "LOW" else "HIGH") ++ "\n", "OK\n"]
          evs := r.2 }

/-- UartCommandHandler::parseTestCommand — `TEST`. -/
def parseTestCommand (drv : ArrayDriver) : HOut :=
  let r := drv.runElectrodeTest
  { drv := r.1
    resps := ["Running electrode test (140 electrodes x 100ms)...\n",
              "Test complete\n", "OK\n"]
    evs := r.2 }

/-- UartCommandHandler::parseStatusCommand — `STATUS`. -/
def parseStatusCommand (drv : ArrayDriver) : HOut :=
  { drv := drv
    resps := ["\n=== System Status ===\n",
              (if drv.isSequenceRunning then "Sequence: RUNNING\n"
               else "Sequence: IDLE\n"),
              "Electrodes: 140 (10 rows x 14 columns)\n",
              "Status: OK\n\n"]
    evs := [] }

/-- UartCommandHandler::parseStopCommand — `STOP`. -/
def parseStopCommand (drv : ArrayDriver) : HOut :=
  if drv.isSequenceRunning then
    { drv := drv.stopSequence
      resps := ["Sequence stopped\n", "OK\n"], evs := [] }
  else
    { drv := drv, resps := ["No sequence running\n", "OK\n"], evs := [] }

/-- UartCommandHandler::parseGetStateCommand — `GET|ELECTRODE`. -/
def parseGetStateCommand (drv : ArrayDriver) (cmd : List Char) : HOut :=
  let ptr := cmd.drop 4
  let electrode := atoiC ptr
  if electrode < 1 || electrode > 140 then
    errOut drv "Invalid electrode (1-140)"
  else
    match drv.getRowColFromElectrode electrode.toNat with
    | some (row, col) =>
      { drv := drv
        resps := ["Electrode " ++ toString electrode ++ " (Row " ++
                    toString row ++ ", Col " ++ toString col ++ "): " ++
                    (if drv.getElectrodeState row col then "HIGH" else "LOW") ++
                    "\n", "OK\n"]
        evs := [] }
    | none => errOut drv "Failed to get electrode state"

/-- UartCommandHandler::parseReloadMappingCommand — `RELOAD`. -/
def parseReloadMappingCommand (drv : ArrayDriver) : HOut :=
  { drv := drv
    resps := ["Reload mapping not implemented (requires re-initialization)\n",
              errText "Not implemented"]
    evs := [] }

/-- Help text sent for `HELP`. -/
def helpResps : List String :=
  ["\n=== ArrayDriver Commands ===\n",
   "START|REPS|DELAY|STEPS|ID1,DUR1|ID2,DUR2|...|END - Execute sequence\n",
   "SET|ELECTRODE|STATE - Set single electrode (STATE: 0=LOW, 1=HIGH)\n",
   "ALL|STATE - Set all electrodes\n",
   "ROW|ROW_NUM|STATE - Set all electrodes in row\n",
   "COL|COL_NUM|STATE - Set all electrodes in column\n",
   "TEST - Run full electrode test\n",
   "STATUS - Get system status\n",
   "STOP - Stop current sequence\n",
   "GET|ELECTRODE - Get electrode state\n",
   "RELOAD - Reload JSON mappings\n",
   "HELP - Show this help\n\n"]

/-- UartCommandHandler::parseCommand — skip leading blanks, then dispatch
on the case-sensitive verb prefix, in the order the C code tests them. -/
def parseCommand (drv : ArrayDriver) (cmd0 : List Char) : HOut :=
  let cmd := cmd0.dropWhile (fun c => c = ' ' || c = '\t')
  if cmd = [] then { drv := drv, resps := [], evs := [] }
  else if ("START|".data).isPrefixOf cmd then parseElectrodeCommand drv cmd
  else if ("SET|".data).isPrefixOf cmd then parseSingleElectrodeCommand drv cmd
  else if ("ALL|".data).isPrefixOf cmd then parseAllElectrodesCommand drv cmd
  else if ("ROW|".data).isPrefixOf cmd then parseRowCommand drv cmd
  else if ("COL|".data).isPrefixOf cmd then parseColCommand drv cmd
  else if ("TEST".data).isPrefixOf cmd then parseTestCommand drv
  else if ("STATUS".data).isPrefixOf cmd then parseStatusCommand drv
  else if ("STOP".data).isPrefixOf cmd then parseStopCommand drv
  else if ("GET|".data).isPrefixOf cmd then parseGetStateCommand drv cmd
  else if ("RELOAD".data).isPrefixOf cmd then parseReloadMappingCommand drv
  else if ("HELP".data).isPrefixOf cmd then
    { drv := drv, resps := helpResps, evs := [] }
  else errOut drv "Unknown command. Type 'HELP' for command list"

/-! ### Byte ingestion and the polling loop -/

/-- The line-assembly state: `bufRev` holds the first `idx` bytes of
`cmdBuffer` in reverse order, `complete` is `cmdComplete`. -/
structure UartState where
  bufRev : List Char
  idx : Nat
  complete : Bool
deriving DecidableEq, Repr

/-- The state after UartCommandHandler::init. -/
def initUart : UartState :=
  { bufRev := [], idx := 0, complete := false }

/-- UartCommandHandler::processByte — overflow check first (resetting the
index and dropping the byte), then terminator handling (ignored on an
empty buffer), else append. -/
def processByte (u : UartState) (b : Char) : UartState × List String :=
  if u.idx ≥ UART_CMD_BUFFER_SIZE - 1 then
    ({ bufRev := [], idx := 0, complete := u.complete },
     [errText "Buffer overflow"])
  else if b = '\n' || b = '\r' then
    if u.idx > 0 then ({ u with complete := true }, []) else (u, [])
  else
    ({ u with bufRev := b :: u.bufRev, idx := u.idx + 1 }, [])

/-- UartCommandHandler::processCommands — when a line is complete, hand it
to the parser and reset the buffer; the third component records the line
that was dispatched. -/
def processCommands (u : UartState) (drv : ArrayDriver) :
    UartState × HOut × List (List Char) :=
  if u.complete then
    let line := u.bufRev.reverse
    (initUart, parseCommand drv line, [line])
  else
    (u, { drv := drv, resps := [], evs := [] }, [])

/-- Accumulated observations of a run of the firmware loop. -/
structure RunOut where
  uart : UartState
  drv : ArrayDriver
  resps : List String
  dispatched : List (List Char)
  evs : List DriverEvent

/-- The main loop: each incoming byte goes through `processByte`, after
which `processCommands` is polled (the single-threaded cadence of the
firmware main loop). -/
def runBytes (u : UartState) (drv : ArrayDriver) : List Char → RunOut
  | [] => { uart := u, drv := drv, resps := [], dispatched := [], evs := [] }
  | b :: bs =>
    let p := processByte u b
    let q := processCommands p.1 drv
    let rest := runBytes q.1 q.2.1.drv bs
    { uart := rest.uart
      drv := rest.drv
      resps := p.2 ++ q.2.1.resps ++ rest.resps
      dispatched := q.2.2 ++ rest.dispatched
      evs := q.2.1.evs ++ rest.evs }

end UartCommandHandler

/-! ## Reference traces and concrete test inputs -/

/-- Expected event trace of one pass over a step list: each step is a
crosspoint write followed by its hold delay. -/
def stepsTrace : List ElectrodeStep_t → List DriverEvent
  | [] => []
  | st :: rest =>
    DriverEvent.write st.row st.col st.state ::
      DriverEvent.delay st.duration_ms :: stepsTrace rest

/-- Expected event trace of a whole blocking run: `n` passes over the step
list with the inter-cycle delay between consecutive passes and not after
the last one. -/
def seqTrace (ss : List ElectrodeStep_t) (d : Nat) : Nat → List DriverEvent
  | 0 => []
  | 1 => stepsTrace ss
  | n + 2 => stepsTrace ss ++ DriverEvent.delay d :: seqTrace ss d (n + 1)

/-- An ElectrodeMap.json that is present and well formed but holds no
electrode entries. -/
def emJsonIncomplete : List Char := "\x7b\"mapping\": \x7b\x7d\x7d".data

/-- A PinMap.json that is present and well formed but holds no electrode
entries. -/
def pmJsonIncomplete : List Char := "\x7b\"electrodes\": \x7b\x7d\x7d".data

/-- One possible indeterminate content of the uninitialised
`electrodeMap` member array before the constructor body runs: every byte
of every entry reads 200. -/
def garbageMap : List ElectrodeMapping :=
  List.replicate NUM_ELECTRODES { row := 200, col := 200 }

/-! ## General lemmas about the sequence engine -/

/-- Unfolding equation for the cycle loop at a positive cycle count. -/
lemma runCycles_succ (s : ArrayDriver) (steps : List ElectrodeStep_t)
    (d k : Nat) :
    ArrayDriver.runCycles s steps d (k + 1) =
      ((ArrayDriver.runCycles (ArrayDriver.runSteps s steps).1 steps d k).1,
       (ArrayDriver.runSteps s steps).2 ++
         (if k = 0 then [] else [DriverEvent.delay d]) ++
         (ArrayDriver.runCycles (ArrayDriver.runSteps s steps).1 steps d k).2) :=
  rfl

/-- Running an empty step list leaves the driver untouched and emits only
the inter-cycle delays. -/
lemma runCycles_nil (d : Nat) : ∀ (n : Nat) (s : ArrayDriver),
    ArrayDriver.runCycles s [] d n =
      (s, List.replicate (n - 1) (DriverEvent.delay d)) := by
  intro n
  induction n with
  | zero => intro s; rfl
  | succ k ih =>
    intro s
    rw [runCycles_succ]
    have hq : ArrayDriver.runSteps s [] = (s, []) := rfl
    rw [hq]
    simp only [ih s]
    cases k with
    | zero => simp
    | succ k1 => simp [List.replicate_succ]

/-- When every step is inside the matrix, one pass over the step list
emits exactly the reference trace. -/
lemma runSteps_evs : ∀ (ss : List ElectrodeStep_t) (s : ArrayDriver),
    (∀ st ∈ ss, st.row < NUM_ROWS ∧ st.col < NUM_COLS) →
    (ArrayDriver.runSteps s ss).2 = stepsTrace ss := by
  intro ss
  induction ss with
  | nil => intro s _; simp [ArrayDriver.runSteps, stepsTrace]
  | cons st rest ih =>
    intro s hb
    have hst := hb st (List.mem_cons_self st rest)
    have hrest : ∀ x ∈ rest, x.row < NUM_ROWS ∧ x.col < NUM_COLS :=
      fun x hx => hb x (List.mem_cons_of_mem st hx)
    have hcond : (st.row ≥ NUM_ROWS || st.col ≥ NUM_COLS) = false := by
      simp only [Bool.or_eq_false_iff, decide_eq_false_iff_not]
      omega
    simp [ArrayDriver.runSteps, stepsTrace, ArrayDriver.setElectrode,
      hcond, ih _ hrest]

/-- When every step is inside the matrix, the blocking cycle loop with at
least one cycle emits exactly the reference trace. -/
lemma runCycles_evs (ss : List ElectrodeStep_t) (d : Nat)
    (hb : ∀ st ∈ ss, st.row < NUM_ROWS ∧ st.col < NUM_COLS) :
    ∀ (n : Nat) (s : ArrayDriver), 1 ≤ n →
    (ArrayDriver.runCycles s ss d n).2 = seqTrace ss d n := by
  intro n
  induction n with
  | zero => intro s h; omega
  | succ k ih =>
    intro s _
    cases k with
    | zero =>
      rw [runCycles_succ]
      simp [ArrayDriver.runCycles, seqTrace, runSteps_evs ss s hb]
    | succ k1 =>
      have ihq := ih ((ArrayDriver.runSteps s ss).1) (by omega)
      rw [runCycles_succ]
      simp only [ihq, Nat.succ_ne_zero, if_neg, runSteps_evs ss s hb]
      simp [seqTrace]

/-! ## Claim C6 -/

/-- C6: for every in-range row and column, `setElectrode` followed
immediately by `getElectrodeState` at the same cell returns the state just
written (for both states); for every out-of-range row or column,
`setElectrode` leaves the whole driver state — in particular the electrode
state array — unchanged, and being a total function it cannot crash. -/
theorem c6_set_get_roundtrip (s : ArrayDriver) (row col : Nat) (b : Bool) :
    (row < NUM_ROWS → col < NUM_COLS →
      (ArrayDriver.setElectrode s row col b).1.getElectrodeState row col = b)
    ∧ (¬(row < NUM_ROWS ∧ col < NUM_COLS) →
      (ArrayDriver.setElectrode s row col b).1 = s) := by
  constructor
  · intro hr hc
    have hcond : (row ≥ NUM_ROWS || col ≥ NUM_COLS) = false := by
      simp only [Bool.or_eq_false_iff, decide_eq_false_iff_not]
      omega
    simp [ArrayDriver.setElectrode, ArrayDriver.getElectrodeState, hcond]
  · intro h
    have hcond : (row ≥ NUM_ROWS || col ≥ NUM_COLS) = true := by
      simp only [Bool.or_eq_true, decide_eq_true_eq]
      omega
    simp [ArrayDriver.setElectrode, hcond]

/-- Witness for C6 at concrete inputs: writing then reading cell (3, 4)
returns the written state, and a write at the out-of-range row 10 leaves
the driver unchanged. -/
theorem c6_set_get_roundtrip_witness :
    (ArrayDriver.setElectrode initialDriver 3 4 true).1.getElectrodeState 3 4
        = true
    ∧ (ArrayDriver.setElectrode
        (ArrayDriver.setElectrode initialDriver 3 4 false).1 3 4 false).1.getElectrodeState 3 4
        = false
    ∧ (ArrayDriver.setElectrode initialDriver 10 4 true).1 = initialDriver :=
  ⟨(c6_set_get_roundtrip initialDriver 3 4 true).1 (by decide) (by decide),
   (c6_set_get_roundtrip
      (ArrayDriver.setElectrode initialDriver 3 4 false).1 3 4 false).1
     (by decide) (by decide),
   (c6_set_get_roundtrip initialDriver 10 4 true).2 (by decide)⟩

/-! ## Claim C7 -/

/-- C7: after `setAllElectrodesHigh` the pattern read back is true at every
cell of the 10x14 matrix, and after `setAllElectrodesLow` it is false at
every cell. -/
theorem c7_set_all_pattern (s : ArrayDriver) (row col : Nat) :
    row < NUM_ROWS → col < NUM_COLS →
    (s.setAllElectrodesHigh).getPattern row col = true
    ∧ (s.setAllElectrodesLow).getPattern row col = false := by
  intro _ _
  constructor
  · simp [ArrayDriver.setAllElectrodesHigh, ArrayDriver.getPattern]
  · simp [ArrayDriver.setAllElectrodesLow, ArrayDriver.getPattern]

/-- Witness for C7 at cell (9, 13). -/
theorem c7_set_all_pattern_witness :
    (initialDriver.setAllElectrodesHigh).getPattern 9 13 = true
    ∧ (initialDriver.setAllElectrodesLow).getPattern 9 13 = false :=
  c7_set_all_pattern initialDriver 9 13 (by decide) (by decide)

/-! ## Claim C8 -/

/-- C8: from every driver state, `stopSequence` leaves the engine idle —
`isSequenceRunning` reads false immediately afterwards — and the electrode
state array is completely unchanged. -/
theorem c8_stop_idle_frame (s : ArrayDriver) :
    (s.stopSequence).isSequenceRunning = false
    ∧ (s.stopSequence).electrodeState = s.electrodeState := by
  constructor
  · simp [ArrayDriver.stopSequence, ArrayDriver.isSequenceRunning]
  · simp [ArrayDriver.stopSequence]

/-! ## Claim C4 -/

/-- Counterexample to C4 as stated: starting the non-blocking path on a
sequence whose step pointer is non-null but whose step count is zero does
enter the running state — `isSequenceRunning` reads true immediately after
`executeSequenceAsync`, where the claim requires it to stay false. -/
theorem c4_async_zero_steps_enters_running :
    (ArrayDriver.executeSequenceAsync initialDriver
      { steps := some [], numSteps := 0, cycleCount := 1, cycleDelay_ms := 0 }
      0).isSequenceRunning = true := by
  rfl

/-- C4 (amended): a sequence with a null step list is a complete no-op for
both the blocking execution and the non-blocking start; a sequence with
zero steps produces no electrode write and leaves the driver unchanged in
the blocking path, which never enters the running state — but the
non-blocking start of any sequence with a non-null step list (zero-step
ones included) does enter the running state. -/
theorem c4_empty_sequence_no_writes (s : ArrayDriver)
    (seq : ElectrodeSequence_t) (now : Nat) :
    (seq.steps = none →
      ArrayDriver.executeSequence s seq = (s, [])
      ∧ ArrayDriver.executeSequenceAsync s seq now = s)
    ∧ (seq.numSteps = 0 →
      (ArrayDriver.executeSequence s seq).1 = s
      ∧ ((ArrayDriver.executeSequence s seq).2.all fun e => !e.isWrite) = true)
    ∧ (∀ l, seq.steps = some l →
      (ArrayDriver.executeSequenceAsync s seq now).isSequenceRunning = true) := by
  refine ⟨?_, ?_, ?_⟩
  · intro h
    constructor
    · simp [ArrayDriver.executeSequence, h]
    · simp [ArrayDriver.executeSequenceAsync, h]
  · intro h
    cases hsteps : seq.steps with
    | none => simp [ArrayDriver.executeSequence, hsteps]
    | some l =>
      have htake : l.take seq.numSteps = [] := by simp [h]
      constructor
      · simp [ArrayDriver.executeSequence, hsteps, htake,
          runCycles_nil seq.cycleDelay_ms seq.cycleCount s]
      · simp only [ArrayDriver.executeSequence, hsteps, htake,
          runCycles_nil seq.cycleDelay_ms seq.cycleCount s]
        simp [List.all_eq_true, List.eq_of_mem_replicate, DriverEvent.isWrite]
  · intro l h
    simp [ArrayDriver.executeSequenceAsync, h, ArrayDriver.isSequenceRunning]

/-- Witness for C4 (amended) at concrete inputs: a null-step sequence is a
no-op, a zero-step sequence with three cycles writes nothing, and the
non-blocking start of a zero-step sequence reads as running. -/
theorem c4_empty_sequence_no_writes_witness :
    (ArrayDriver.executeSequence initialDriver
      { steps := none, numSteps := 5, cycleCount := 3, cycleDelay_ms := 7 }
        = (initialDriver, [])
      ∧ ArrayDriver.executeSequenceAsync initialDriver
          { steps := none, numSteps := 5, cycleCount := 3, cycleDelay_ms := 7 } 0
        = initialDriver)
    ∧ ((ArrayDriver.executeSequence initialDriver
        { steps := some [], numSteps := 0, cycleCount := 3, cycleDelay_ms := 7 }).1
        = initialDriver
      ∧ ((ArrayDriver.executeSequence initialDriver
          { steps := some [], numSteps := 0, cycleCount := 3,
            cycleDelay_ms := 7 }).2.all fun e => !e.isWrite) = true)
    ∧ (ArrayDriver.executeSequenceAsync initialDriver
        { steps := some [], numSteps := 0, cycleCount := 3, cycleDelay_ms := 7 }
        0).isSequenceRunning = true :=
  ⟨(c4_empty_sequence_no_writes initialDriver
      { steps := none, numSteps := 5, cycleCount := 3, cycleDelay_ms := 7 } 0).1
      rfl,
   (c4_empty_sequence_no_writes initialDriver
      { steps := some [], numSteps := 0, cycleCount := 3, cycleDelay_ms := 7 }
      0).2.1 rfl,
   (c4_empty_sequence_no_writes initialDriver
      { steps := some [], numSteps := 0, cycleCount := 3, cycleDelay_ms := 7 }
      0).2.2 [] rfl⟩

/-! ## Claim C1 -/

/-- A fold whose step function fixes the accumulator for every element of
the list returns the accumulator unchanged. -/
lemma foldl_fixed {α β : Type} (f : α → β → α) (a : α) :
    ∀ l : List β, (∀ b ∈ l, f a b = a) → l.foldl f a = a := by
  intro l
  induction l with
  | nil => intro _; rfl
  | cons x xs ih =>
    intro h
    have hx : f a x = a := h x (List.mem_cons_self x xs)
    simp only [List.foldl_cons, hx]
    exact ih fun b hb => h b (List.mem_cons_of_mem x hb)

/-- A fold whose step function is the identity in its first argument for
every element returns any accumulator unchanged. -/
lemma foldl_id {α β : Type} (f : α → β → α) :
    ∀ l : List β, (∀ a, ∀ b ∈ l, f a b = a) → ∀ a, l.foldl f a = a := by
  intro l h a
  exact foldl_fixed f a l (fun b hb => h a b hb)

/-- Searching for a pattern whose first character does not occur in the
haystack finds nothing. -/
lemma strstrC_none_of_head_notMem (c : Char) (pat : List Char) :
    ∀ hay : List Char, c ∉ hay → strstrC hay (c :: pat) = none := by
  intro hay
  induction hay with
  | nil => intro _; simp [strstrC, List.isPrefixOf]
  | cons a t ih =>
    intro h
    have hca : ¬(c = a) := fun hc => h (hc ▸ List.mem_cons_self a t)
    have hct : c ∉ t := fun hc => h (List.mem_cons_of_mem a hc)
    have hpre : ¬((c :: pat).isPrefixOf (a :: t) = true) := by
      rw [List.isPrefixOf_iff_prefix, List.cons_prefix_cons]
      rintro ⟨rfl, -⟩
      exact hca rfl
    simp only [strstrC, if_neg hpre]
    exact ih hct

/-- Inside the empty mapping object text, no quoted electrode key is ever
found, so the per-electrode loop body leaves any map untouched. -/
lemma emEntryStep_empty (acc : List ElectrodeMapping) (i : Nat) :
    ArrayDriver.emEntryStep ("\x7b\x7d\x7d".data) acc i = acc := by
  simp only [ArrayDriver.emEntryStep, List.cons_append]
  rw [strstrC_none_of_head_notMem '"' _ (['\x7b', '\x7d', '\x7d']) (by decide)]

/-- The empty (yet well-formed) ElectrodeMap.json reports success without
touching a single entry of the map. -/
lemma parseElectrodeMapJSON_incomplete (m : List ElectrodeMapping) :
    ArrayDriver.parseElectrodeMapJSON m emJsonIncomplete = (m, true) := by
  have hs : strstrC emJsonIncomplete ("\"mapping\"".data)
      = some ("\"mapping\": \x7b\x7d\x7d".data) := by decide
  have hb : strchrC ("\"mapping\": \x7b\x7d\x7d".data) '{'
      = some ("\x7b\x7d\x7d".data) := by decide
  simp only [ArrayDriver.parseElectrodeMapJSON, hs, hb]
  rw [foldl_id _ _ (fun a b _ => emEntryStep_empty a b) m]

/-- Inside the empty electrodes object text, no quoted "row,col" key is
ever found, so the key loop body leaves the pin tables untouched. -/
lemma pmKeyStep_empty (row : Nat) (pc : List Nat × List Nat) (col : Nat) :
    ArrayDriver.pmKeyStep ("\x7b\x7d\x7d".data) row pc col = pc := by
  simp only [ArrayDriver.pmKeyStep, List.cons_append]
  rw [strstrC_none_of_head_notMem '"' _ (['\x7b', '\x7d', '\x7d']) (by decide)]

/-- An all-200 garbage entry encodes the out-of-range pin 3001, so the
final rewrite loop of parsePinMapJSON leaves the garbage map untouched. -/
lemma pmFinalStep_garbage (pcie : List Nat × List Nat) (i : Nat)
    (hi : i < NUM_ELECTRODES) :
    ArrayDriver.pmFinalStep pcie garbageMap i = garbageMap := by
  have hget : garbageMap.getD i { row := 0, col := 0 }
      = { row := 200, col := 200 } := by
    rw [garbageMap, List.getD_eq_getElem _ _ (by simpa using hi)]
    simp
  simp only [ArrayDriver.pmFinalStep, hget]
  rw [if_neg (by decide)]

/-- The empty (yet well-formed) PinMap.json reports success and leaves the
garbage map completely untouched. -/
lemma parsePinMapJSON_incomplete :
    ArrayDriver.parsePinMapJSON garbageMap pmJsonIncomplete
      = (garbageMap, true) := by
  have hs : strstrC pmJsonIncomplete ("\"electrodes\"".data)
      = some ("\"electrodes\": \x7b\x7d\x7d".data) := by decide
  have hb : strchrC ("\"electrodes\": \x7b\x7d\x7d".data) '{'
      = some ("\x7b\x7d\x7d".data) := by decide
  simp only [ArrayDriver.parsePinMapJSON, hs, hb]
  rw [foldl_id
    (fun pr row =>
      (List.range NUM_COLS).foldl (ArrayDriver.pmKeyStep ("\x7b\x7d\x7d".data) row) pr)
    (List.range NUM_ROWS)
    (fun a row _ => foldl_id _ _ (fun pc col _ => pmKeyStep_empty row pc col) a)]
  rw [foldl_fixed _ garbageMap (List.range NUM_ELECTRODES)
    (fun i hi => pmFinalStep_garbage _ i (List.mem_range.mp hi))]

/-- C1 is contradicted by the code: when both mapping files are present
and well formed but hold no entries (incomplete source data), the
constructor reports both loads as successful, so the fallback to the
default 1:1 mapping is never taken, and the `electrodeMap` member array
keeps the indeterminate contents it had before the constructor body ran.
With the indeterminate bytes reading 200, resolving electrode 1 succeeds
and returns row 200, col 200 — far outside the 10x14 matrix — instead of
the default row 0, col 0 the claim requires; only when a whole file fails
to load (both absent here) does the default mapping appear. -/
theorem c1_incomplete_mapping_resolves_out_of_bounds :
    (ArrayDriver.construct (some emJsonIncomplete) (some pmJsonIncomplete)
        garbageMap).getRowColFromElectrode 1 = some (200, 200)
    ∧ ¬(200 < NUM_ROWS) ∧ ¬(200 < NUM_COLS)
    ∧ (ArrayDriver.construct none none garbageMap).getRowColFromElectrode 1
        = some (0, 0) := by
  refine ⟨?_, by decide, by decide, ?_⟩
  · simp only [ArrayDriver.construct, parseElectrodeMapJSON_incomplete,
      parsePinMapJSON_incomplete]
    decide
  · decide

/-! ## Claim C10 -/

/-- C10: whenever the electrode field of a GET command parses to a value
in 1..140, the resolution step cannot fail: the "Failed to get electrode
state" error branch is unreachable, no error reply of any kind is
produced, and the command replies with the state text followed by OK,
touching neither the driver state nor the hardware. -/
theorem c10_get_state_cannot_fail (drv : ArrayDriver) (cmd : List Char)
    (h1 : 1 ≤ atoiC (cmd.drop 4)) (h2 : atoiC (cmd.drop 4) ≤ 140) :
    (∃ stateLine, (UartCommandHandler.parseGetStateCommand drv cmd).resps
        = [stateLine, "OK\n"])
    ∧ (UartCommandHandler.parseGetStateCommand drv cmd).drv = drv
    ∧ (UartCommandHandler.parseGetStateCommand drv cmd).evs = []
    ∧ ∀ msg, UartCommandHandler.parseGetStateCommand drv cmd
        ≠ UartCommandHandler.errOut drv msg := by
  have hc1 : (decide (atoiC (cmd.drop 4) < 1)
      || decide (atoiC (cmd.drop 4) > 140)) = false := by
    simp only [Bool.or_eq_false_iff, decide_eq_false_iff_not]
    omega
  have hc2 : (decide ((atoiC (cmd.drop 4)).toNat < 1)
      || decide ((atoiC (cmd.drop 4)).toNat > NUM_ELECTRODES)) = false := by
    simp only [Bool.or_eq_false_iff, decide_eq_false_iff_not, NUM_ELECTRODES]
    omega
  refine ⟨?_, ?_, ?_, ?_⟩
  · simp only [UartCommandHandler.parseGetStateCommand,
      ArrayDriver.getRowColFromElectrode, hc1, hc2, Bool.false_eq_true,
      if_false]
    exact ⟨_, rfl⟩
  · simp only [UartCommandHandler.parseGetStateCommand,
      ArrayDriver.getRowColFromElectrode, hc1, hc2, Bool.false_eq_true,
      if_false]
  · simp only [UartCommandHandler.parseGetStateCommand,
      ArrayDriver.getRowColFromElectrode, hc1, hc2, Bool.false_eq_true,
      if_false]
  · intro msg heq
    have hl := congrArg (fun o => List.length o.resps) heq
    simp only [UartCommandHandler.parseGetStateCommand,
      ArrayDriver.getRowColFromElectrode, hc1, hc2, Bool.false_eq_true,
      if_false, UartCommandHandler.errOut] at hl
    simp at hl

/-- Witness for C10 at the command `GET|7` against the fallback-mapped
driver. -/
theorem c10_get_state_cannot_fail_witness :
    (∃ stateLine, (UartCommandHandler.parseGetStateCommand initialDriver
        ("GET|7".data)).resps = [stateLine, "OK\n"])
    ∧ (UartCommandHandler.parseGetStateCommand initialDriver
        ("GET|7".data)).drv = initialDriver
    ∧ (UartCommandHandler.parseGetStateCommand initialDriver
        ("GET|7".data)).evs = []
    ∧ ∀ msg, UartCommandHandler.parseGetStateCommand initialDriver
        ("GET|7".data) ≠ UartCommandHandler.errOut initialDriver msg :=
  c10_get_state_cannot_fail initialDriver ("GET|7".data)
    (by decide) (by decide)

/-! ## Claim C5 -/

/-- C5: blocking execution of a sequence performs exactly `cycleCount`
cycles, within each cycle applies each step's electrode write in list
order followed by that step's hold delay, and places the inter-cycle
delay between consecutive cycles but not after the last; and the handler
parsing the concrete command `START|3|50|2|1,10|2,20|END` replies OK
(after the progress messages) having produced exactly that trace —
3 cycles of (electrode 1 on, 10 ms; electrode 2 on, 20 ms) separated by
50 ms. -/
theorem c5_blocking_execution_trace :
    (∀ (s : ArrayDriver) (ss : List ElectrodeStep_t) (n d : Nat),
      1 ≤ n → (∀ st ∈ ss, st.row < NUM_ROWS ∧ st.col < NUM_COLS) →
      (ArrayDriver.executeSequence s
        { steps := some ss, numSteps := ss.length, cycleCount := n,
          cycleDelay_ms := d }).2 = seqTrace ss d n)
    ∧ (UartCommandHandler.parseElectrodeCommand initialDriver
        ("START|3|50|2|1,10|2,20|END".data)).resps
        = ["Executing sequence...\n", "Sequence complete\n", "OK\n"]
    ∧ (UartCommandHandler.parseElectrodeCommand initialDriver
        ("START|3|50|2|1,10|2,20|END".data)).evs
        = [DriverEvent.write 0 0 true, DriverEvent.delay 10,
           DriverEvent.write 0 1 true, DriverEvent.delay 20,
           DriverEvent.delay 50,
           DriverEvent.write 0 0 true, DriverEvent.delay 10,
           DriverEvent.write 0 1 true, DriverEvent.delay 20,
           DriverEvent.delay 50,
           DriverEvent.write 0 0 true, DriverEvent.delay 10,
           DriverEvent.write 0 1 true, DriverEvent.delay 20] := by
  refine ⟨?_, ?_, ?_⟩
  · intro s ss n d hn hb
    simp only [ArrayDriver.executeSequence, List.take_length]
    exact runCycles_evs ss d hb n s hn
  · decide
  · decide

/-- Witness for C5 applying the trace theorem to a concrete one-step,
two-cycle sequence. -/
theorem c5_blocking_execution_trace_witness :
    (ArrayDriver.executeSequence initialDriver
      { steps := some [{ row := 0, col := 0, state := true, duration_ms := 10 }],
        numSteps := 1, cycleCount := 2, cycleDelay_ms := 5 }).2
      = seqTrace [{ row := 0, col := 0, state := true, duration_ms := 10 }] 5 2 :=
  c5_blocking_execution_trace.1 initialDriver
    [{ row := 0, col := 0, state := true, duration_ms := 10 }] 2 5
    (by decide) (by decide)

/-! ## Lemmas about the START parser -/

/-- Every electrode number in 1..140 resolves, whatever the mapping table
holds. -/
lemma getRowColFromElectrode_some (drv : ArrayDriver) (n : Nat)
    (h1 : 1 ≤ n) (h2 : n ≤ NUM_ELECTRODES) :
    ∃ rc, drv.getRowColFromElectrode n = some rc := by
  have hc : (decide (n < 1) || decide (n > NUM_ELECTRODES)) = false := by
    simp only [Bool.or_eq_false_iff, decide_eq_false_iff_not]
    omega
  simp only [ArrayDriver.getRowColFromElectrode, hc, Bool.false_eq_true,
    if_false]
  exact ⟨_, rfl⟩

/-- When every parsed electrode id is in 1..140, the step-list builder
succeeds. -/
lemma buildSteps_some (drv : ArrayDriver) :
    ∀ ids : List (Int × Int), (∀ p ∈ ids, 1 ≤ p.1 ∧ p.1 ≤ 140) →
    ∃ steps, UartCommandHandler.buildSteps drv ids = some steps := by
  intro ids
  induction ids with
  | nil => intro _; exact ⟨[], rfl⟩
  | cons p rest ih =>
    intro h
    obtain ⟨hp1, hp2⟩ := h p (List.mem_cons_self p rest)
    obtain ⟨rc, hrc⟩ := getRowColFromElectrode_some drv p.1.toNat
      (by omega) (by simp only [NUM_ELECTRODES]; omega)
    obtain ⟨r, c⟩ := rc
    obtain ⟨steps, hsteps⟩ := ih fun q hq => h q (List.mem_cons_of_mem p hq)
    refine ⟨{ row := r, col := c, state := true,
              duration_ms := p.2.toNat } :: steps, ?_⟩
    simp [UartCommandHandler.buildSteps, hrc, hsteps]

/-- Every step the handler builds carries `state = true`. -/
lemma buildSteps_all_on (drv : ArrayDriver) :
    ∀ ids : List (Int × Int),
    ((UartCommandHandler.buildSteps drv ids).getD []).all
      (fun st => st.state) = true := by
  intro ids
  induction ids with
  | nil => rfl
  | cons p rest ih =>
    cases hrc : drv.getRowColFromElectrode p.1.toNat with
    | none => simp [UartCommandHandler.buildSteps, hrc]
    | some rc =>
      cases hb : UartCommandHandler.buildSteps drv rest with
      | none => simp [UartCommandHandler.buildSteps, hrc, hb]
      | some steps =>
        rw [hb] at ih
        simp only [Option.getD_some, List.all_eq_true] at ih
        simp only [UartCommandHandler.buildSteps, hrc, hb, Option.getD_some,
          List.all_cons, Bool.and_eq_true, List.all_eq_true]
        exact ⟨trivial, ih⟩

/-- A single electrode write emits no off-write when the requested state
is on. -/
lemma setElectrode_evs_on (s : ArrayDriver) (row col : Nat) :
    ((ArrayDriver.setElectrode s row col true).2.all
      fun e => !e.isOffWrite) = true := by
  by_cases h : (row ≥ NUM_ROWS || col ≥ NUM_COLS) = true
  · simp [ArrayDriver.setElectrode, h]
  · simp only [Bool.not_eq_true] at h
    simp [ArrayDriver.setElectrode, h, DriverEvent.isOffWrite]

/-- A pass over a step list whose steps are all on emits no off-write. -/
lemma runSteps_evs_on : ∀ (ss : List ElectrodeStep_t) (s : ArrayDriver),
    ss.all (fun st => st.state) = true →
    ((ArrayDriver.runSteps s ss).2.all fun e => !e.isOffWrite) = true := by
  intro ss
  induction ss with
  | nil => intro s _; rfl
  | cons st rest ih =>
    intro s h
    simp only [List.all_cons, Bool.and_eq_true] at h
    have hst : st.state = true := h.1
    simp only [ArrayDriver.runSteps, List.all_append, List.all_cons,
      Bool.and_eq_true]
    refine ⟨?_, by simp [DriverEvent.isOffWrite], ih _ h.2⟩
    rw [hst]
    exact setElectrode_evs_on s st.row st.col

/-- The cycle loop over an all-on step list emits no off-write. -/
lemma runCycles_evs_on (ss : List ElectrodeStep_t) (d : Nat)
    (h : ss.all (fun st => st.state) = true) :
    ∀ (n : Nat) (s : ArrayDriver),
    ((ArrayDriver.runCycles s ss d n).2.all fun e => !e.isOffWrite) = true := by
  intro n
  induction n with
  | zero => intro s; rfl
  | succ k ih =>
    intro s
    rw [runCycles_succ]
    simp only [List.all_append, Bool.and_eq_true]
    refine ⟨⟨runSteps_evs_on ss s h, ?_⟩, ih _⟩
    cases k with
    | zero => rfl
    | succ k1 => simp [DriverEvent.isOffWrite]

/-- A take of an all-on list is all-on. -/
lemma all_take {α : Type} (p : α → Bool) (l : List α) (n : Nat)
    (h : l.all p = true) : (l.take n).all p = true := by
  rw [List.all_eq_true] at h ⊢
  exact fun x hx => h x (List.take_subset n l hx)

/-- The handler execution path never emits an off-write, whatever the
parsed ids were. -/
lemma handlerExecuteSequence_evs_on (drv : ArrayDriver)
    (reps delay : Int) (ids : List (Int × Int)) :
    ((UartCommandHandler.handlerExecuteSequence drv reps delay ids).evs.all
      fun e => !e.isOffWrite) = true := by
  cases hb : UartCommandHandler.buildSteps drv ids with
  | none => simp [UartCommandHandler.handlerExecuteSequence, hb,
      UartCommandHandler.errOut]
  | some steps =>
    have hall := buildSteps_all_on drv ids
    rw [hb] at hall
    simp only [Option.getD_some] at hall
    simp only [UartCommandHandler.handlerExecuteSequence, hb,
      ArrayDriver.executeSequence]
    exact runCycles_evs_on _ _ (all_take _ _ _ hall) _ _

/-- On success the handler execution path replies with the two progress
messages (the caller then appends OK). -/
lemma handlerExecuteSequence_resps (drv : ArrayDriver)
    (reps delay : Int) (ids : List (Int × Int))
    (h : ∀ p ∈ ids, 1 ≤ p.1 ∧ p.1 ≤ 140) :
    (UartCommandHandler.handlerExecuteSequence drv reps delay ids).resps
      = ["Executing sequence...\n", "Sequence complete\n"] := by
  obtain ⟨steps, hs⟩ := buildSteps_some drv ids h
  simp [UartCommandHandler.handlerExecuteSequence, hs]

/-- Shape of the step loop: it either rejects with a single error reply,
leaving the driver untouched and the hardware silent, or it reaches the
execution path on some id/duration list all of whose ids passed the
1..140 validation, with OK appended to the replies. -/
lemma stepLoop_shape (drv : ArrayDriver) (reps delay : Int) :
    ∀ (rem i : Nat) (ptr : List Char) (acc : List (Int × Int)),
    (∀ p ∈ acc, 1 ≤ p.1 ∧ p.1 ≤ 140) →
    (∃ m, UartCommandHandler.stepLoop drv reps delay i rem ptr acc
        = UartCommandHandler.errOut drv m)
    ∨ (∃ ids, (∀ p ∈ ids, 1 ≤ p.1 ∧ p.1 ≤ 140) ∧
        UartCommandHandler.stepLoop drv reps delay i rem ptr acc
          = (let r := UartCommandHandler.handlerExecuteSequence drv reps delay ids
             { r with resps := r.resps ++ ["OK\n"] })) := by
  intro rem
  induction rem with
  | zero => intro i ptr acc _; exact Or.inl ⟨_, rfl⟩
  | succ k ih =>
    intro i ptr acc hacc
    simp only [UartCommandHandler.stepLoop]
    by_cases hid : (decide (atoiC ptr < 1) || decide (atoiC ptr > 140)) = true
    · rw [if_pos hid]
      exact Or.inl ⟨_, rfl⟩
    · rw [if_neg hid]
      simp only [Bool.or_eq_true, decide_eq_true_eq, not_or, not_lt] at hid
      cases hcomma : strchrC ptr ',' with
      | none => exact Or.inl ⟨_, rfl⟩
      | some pComma =>
        dsimp only
        by_cases hdur : atoiC (pComma.drop 1) < 0
        · rw [if_pos hdur]
          exact Or.inl ⟨_, rfl⟩
        · rw [if_neg hdur]
          cases hpipe : strchrC (pComma.drop 1) '|' with
          | none => exact Or.inl ⟨_, rfl⟩
          | some pPipe =>
            dsimp only
            have hnext : ∀ q ∈ acc ++ [(atoiC ptr, atoiC (pComma.drop 1))],
                1 ≤ q.1 ∧ q.1 ≤ 140 := by
              intro q hq
              rcases List.mem_append.mp hq with hq1 | hq2
              · exact hacc q hq1
              · simp only [List.mem_singleton] at hq2
                subst hq2
                exact ⟨by omega, by omega⟩
            by_cases hend : ((['E', 'N', 'D'] : List Char).isPrefixOf
                (pPipe.drop 1)) = true
            · rw [if_pos hend]
              by_cases hk : k = 0
              · rw [if_pos hk]
                exact Or.inr ⟨_, hnext, rfl⟩
              · rw [if_neg hk]
                exact Or.inl ⟨_, rfl⟩
            · rw [if_neg hend]
              exact ih (i + 1) (pPipe.drop 1) _ hnext

/-- Shape of the whole START parser: every run either rejects with a
single error reply — driver untouched, no hardware event — or reaches the
execution path on a fully validated id list with OK appended. -/
lemma parseElectrodeCommand_shape (drv : ArrayDriver) (cmd : List Char) :
    (∃ m, UartCommandHandler.parseElectrodeCommand drv cmd
        = UartCommandHandler.errOut drv m)
    ∨ (∃ reps delay ids, (∀ p ∈ ids, 1 ≤ p.1 ∧ p.1 ≤ 140) ∧
        UartCommandHandler.parseElectrodeCommand drv cmd
          = (let r := UartCommandHandler.handlerExecuteSequence drv reps delay ids
             { r with resps := r.resps ++ ["OK\n"] })) := by
  simp only [UartCommandHandler.parseElectrodeCommand]
  by_cases hpre : (!(("START|".data).isPrefixOf cmd)) = true
  · rw [if_pos hpre]
    exact Or.inl ⟨_, rfl⟩
  · rw [if_neg hpre]
    by_cases hreps : (decide (atoiC (cmd.drop 6) < 1)
        || decide (atoiC (cmd.drop 6) > 1000)) = true
    · rw [if_pos hreps]
      exact Or.inl ⟨_, rfl⟩
    · rw [if_neg hreps]
      cases h1 : strchrC (cmd.drop 6) '|' with
      | none => exact Or.inl ⟨_, rfl⟩
      | some p1 =>
        dsimp only
        by_cases hdelay : atoiC (p1.drop 1) < 0
        · rw [if_pos hdelay]
          exact Or.inl ⟨_, rfl⟩
        · rw [if_neg hdelay]
          cases h2 : strchrC (p1.drop 1) '|' with
          | none => exact Or.inl ⟨_, rfl⟩
          | some p2 =>
            dsimp only
            by_cases hsteps : (decide (atoiC (p2.drop 1) < 1)
                || decide (atoiC (p2.drop 1) > (MAX_STEPS : Int))) = true
            · rw [if_pos hsteps]
              exact Or.inl ⟨_, rfl⟩
            · rw [if_neg hsteps]
              cases h3 : strchrC (p2.drop 1) '|' with
              | none => exact Or.inl ⟨_, rfl⟩
              | some p3 =>
                dsimp only
                rcases stepLoop_shape drv (atoiC (cmd.drop 6)) (atoiC (p1.drop 1))
                    (atoiC (p2.drop 1)).toNat 0 (p3.drop 1) []
                    (by intro p hp; simp at hp) with ⟨m, hm⟩ | ⟨ids, hinv, hm⟩
                · exact Or.inl ⟨m, hm⟩
                · exact Or.inr ⟨_, _, ids, hinv, hm⟩

/-! ## Claim C9 -/

/-- C9: every step the START path builds into a sequence has its target
state set to true, so a protocol-driven sequence only ever switches
electrodes on: no run of the START parser ever emits a hardware write
that de-energizes an electrode, and the step-list builder marks every
step it produces with `state = true`. -/
theorem c9_start_steps_always_energize :
    (∀ (drv : ArrayDriver) (cmd : List Char),
      ((UartCommandHandler.parseElectrodeCommand drv cmd).evs.all
        fun e => !e.isOffWrite) = true)
    ∧ (∀ (drv : ArrayDriver) (ids : List (Int × Int)),
      ((UartCommandHandler.buildSteps drv ids).getD []).all
        (fun st => st.state) = true) := by
  constructor
  · intro drv cmd
    rcases parseElectrodeCommand_shape drv cmd with ⟨m, hm⟩ | ⟨reps, delay, ids, _, hm⟩
    · rw [hm]
      rfl
    · rw [hm]
      exact handlerExecuteSequence_evs_on drv reps delay ids
  · intro drv ids
    exact buildSteps_all_on drv ids

/-! ## Claim C2 -/

/-- C2: a START command either fails validation — replying with a single
ERROR line, leaving the driver untouched and causing zero actuation
calls — or passes validation of the entire step list and replies OK after
executing; and each of the concrete violations named by the claim (reps
outside 1..1000, step count outside 1..256, an electrode id outside
1..140, a negative duration, an early END marker, a missing END marker)
is rejected that way. -/
theorem c2_start_validation_rejects_without_actuation :
    (∀ (drv : ArrayDriver) (cmd : List Char),
      (∃ m, UartCommandHandler.parseElectrodeCommand drv cmd
          = UartCommandHandler.errOut drv m)
      ∨ (UartCommandHandler.parseElectrodeCommand drv cmd).resps
          = ["Executing sequence...\n", "Sequence complete\n", "OK\n"])
    ∧ (∀ drv : ArrayDriver,
      UartCommandHandler.parseElectrodeCommand drv ("START|0|50|1|1,10|END".data)
        = UartCommandHandler.errOut drv "Invalid cycle repetitions (1-1000)")
    ∧ (∀ drv : ArrayDriver,
      UartCommandHandler.parseElectrodeCommand drv
          ("START|1001|50|1|1,10|END".data)
        = UartCommandHandler.errOut drv "Invalid cycle repetitions (1-1000)")
    ∧ (∀ drv : ArrayDriver,
      UartCommandHandler.parseElectrodeCommand drv ("START|3|50|0|END".data)
        = UartCommandHandler.errOut drv "Invalid steps count (1-256)")
    ∧ (∀ drv : ArrayDriver,
      UartCommandHandler.parseElectrodeCommand drv
          ("START|3|50|257|1,10|END".data)
        = UartCommandHandler.errOut drv "Invalid steps count (1-256)")
    ∧ (∀ drv : ArrayDriver,
      UartCommandHandler.parseElectrodeCommand drv
          ("START|3|50|1|141,10|END".data)
        = UartCommandHandler.errOut drv "Invalid electrode ID at step 0 (1-140)")
    ∧ (∀ drv : ArrayDriver,
      UartCommandHandler.parseElectrodeCommand drv ("START|3|50|1|1,-5|END".data)
        = UartCommandHandler.errOut drv "Invalid duration at step 0")
    ∧ (∀ drv : ArrayDriver,
      UartCommandHandler.parseElectrodeCommand drv ("START|3|50|2|1,10|END".data)
        = UartCommandHandler.errOut drv "Early END marker")
    ∧ (∀ drv : ArrayDriver,
      UartCommandHandler.parseElectrodeCommand drv ("START|3|50|1|1,10|XX".data)
        = UartCommandHandler.errOut drv "Missing END marker") := by
  refine ⟨?_, fun drv => rfl, fun drv => rfl, fun drv => rfl, fun drv => rfl,
    fun drv => rfl, fun drv => rfl, fun drv => rfl, fun drv => rfl⟩
  intro drv cmd
  rcases parseElectrodeCommand_shape drv cmd with hm | ⟨reps, delay, ids, hinv, hm⟩
  · exact Or.inl hm
  · refine Or.inr ?_
    rw [hm]
    simp only [handlerExecuteSequence_resps drv reps delay ids hinv]
    rfl

/-! ## Lemmas about the byte-ingestion loop -/

/-- Unfolding equation for one iteration of the polling loop. -/
lemma runBytes_cons (u : UartCommandHandler.UartState) (drv : ArrayDriver)
    (b : Char) (bs : List Char) :
    UartCommandHandler.runBytes u drv (b :: bs) =
      (let p := UartCommandHandler.processByte u b
       let q := UartCommandHandler.processCommands p.1 drv
       let rest := UartCommandHandler.runBytes q.1 q.2.1.drv bs
       { uart := rest.uart
         drv := rest.drv
         resps := p.2 ++ q.2.1.resps ++ rest.resps
         dispatched := q.2.2 ++ rest.dispatched
         evs := q.2.1.evs ++ rest.evs }) :=
  rfl

/-- The polling loop splits over concatenation of its input bytes. -/
lemma runBytes_append (bs : List Char) :
    ∀ (as : List Char) (u : UartCommandHandler.UartState) (drv : ArrayDriver),
    UartCommandHandler.runBytes u drv (as ++ bs) =
      (let r1 := UartCommandHandler.runBytes u drv as
       let r2 := UartCommandHandler.runBytes r1.uart r1.drv bs
       { uart := r2.uart
         drv := r2.drv
         resps := r1.resps ++ r2.resps
         dispatched := r1.dispatched ++ r2.dispatched
         evs := r1.evs ++ r2.evs }) := by
  intro as
  induction as with
  | nil => intro u drv; rfl
  | cons b as ih =>
    intro u drv
    rw [List.cons_append, runBytes_cons, runBytes_cons]
    dsimp only
    rw [ih]
    dsimp only
    simp [List.append_assoc]

/-- Feeding non-terminator bytes that fit below the buffer cap only
accumulates them: nothing is replied, dispatched or actuated. -/
lemma runBytes_nonterm (drv : ArrayDriver) :
    ∀ (xs bufRev : List Char) (idx : Nat),
    (∀ c ∈ xs, c ≠ '\n' ∧ c ≠ '\r') →
    idx + xs.length ≤ UART_CMD_BUFFER_SIZE - 1 →
    UartCommandHandler.runBytes ⟨bufRev, idx, false⟩ drv xs =
      { uart := ⟨xs.reverse ++ bufRev, idx + xs.length, false⟩
        drv := drv, resps := [], dispatched := [], evs := [] } := by
  intro xs
  induction xs with
  | nil => intro bufRev idx _ _; rfl
  | cons c xs ih =>
    intro bufRev idx hterm hlen
    obtain ⟨hc1, hc2⟩ := hterm c (List.mem_cons_self c xs)
    have hover : ¬(idx ≥ UART_CMD_BUFFER_SIZE - 1) := by
      simp only [List.length_cons] at hlen
      omega
    have hnl : (decide (c = '\n') || decide (c = '\r')) = false := by
      simp only [Bool.or_eq_false_iff, decide_eq_false_iff_not]
      exact ⟨hc1, hc2⟩
    rw [runBytes_cons]
    dsimp only
    simp only [UartCommandHandler.processByte, if_neg hover, hnl,
      Bool.false_eq_true, if_false]
    dsimp only [UartCommandHandler.processCommands]
    simp only [Bool.false_eq_true, if_false]
    rw [ih (c :: bufRev) (idx + 1)
      (fun d hd => hterm d (List.mem_cons_of_mem c hd))
      (by simp only [List.length_cons] at hlen; omega)]
    simp only [UartCommandHandler.RunOut.mk.injEq,
      UartCommandHandler.UartState.mk.injEq, List.reverse_cons,
      List.append_assoc, List.singleton_append, List.length_cons,
      List.nil_append, List.append_nil, and_true, true_and]
    omega

/-- When the buffer index already sits at the cap, the next byte — any
byte — yields the buffer-overflow error and resets the handler to its
initial state; processing continues as if the stream had started at the
following byte. -/
lemma runBytes_overflow (drv : ArrayDriver) (bufRev : List Char) (b : Char)
    (bs : List Char) :
    UartCommandHandler.runBytes ⟨bufRev, UART_CMD_BUFFER_SIZE - 1, false⟩ drv
        (b :: bs)
      = { UartCommandHandler.runBytes UartCommandHandler.initUart drv bs with
          resps := UartCommandHandler.errText "Buffer overflow"
            :: (UartCommandHandler.runBytes UartCommandHandler.initUart drv
                bs).resps } := by
  rw [runBytes_cons]
  dsimp only
  simp only [UartCommandHandler.processByte, if_pos (Nat.le_refl _)]
  dsimp only [UartCommandHandler.processCommands]
  rfl

/-- An input line longer than the buffer cap: the first 2047 bytes fill
the buffer silently, the byte that hits the cap produces the
buffer-overflow error and resets the handler, and everything after it is
processed exactly as a fresh byte stream. -/
lemma runBytes_overlong (drv : ArrayDriver) (xs : List Char) (b : Char)
    (rest : List Char) (hlen : xs.length = UART_CMD_BUFFER_SIZE - 1)
    (hxs : ∀ c ∈ xs, c ≠ '\n' ∧ c ≠ '\r') :
    UartCommandHandler.runBytes UartCommandHandler.initUart drv (xs ++ b :: rest)
      = { UartCommandHandler.runBytes UartCommandHandler.initUart drv rest with
          resps := UartCommandHandler.errText "Buffer overflow"
            :: (UartCommandHandler.runBytes UartCommandHandler.initUart drv
                rest).resps } := by
  rw [runBytes_append (b :: rest) xs UartCommandHandler.initUart drv]
  have h1 := runBytes_nonterm drv xs [] 0 hxs (by omega)
  simp only [UartCommandHandler.initUart]
  rw [h1]
  dsimp only
  rw [List.append_nil, Nat.zero_add, hlen]
  rw [runBytes_overflow drv xs.reverse b rest]
  simp [UartCommandHandler.initUart]

/-! ## Claim C3 -/

/-- Counterexample to C3 as stated: a 2053-byte line — 2048 copies of
letter A followed by the text STOP — does have a command dispatched from
it.  After the overflow error fires at the 2048th byte and resets the
buffer index, the line's remaining bytes accumulate as a fresh line, so
when its terminator arrives the handler dispatches STOP, replying "No
sequence running" and OK; the claim requires that no command is ever
dispatched from an overlong line. -/
theorem c3_overlong_line_dispatches_tail_command :
    (UartCommandHandler.runBytes UartCommandHandler.initUart initialDriver
        (List.replicate 2048 'A' ++ ("STOP".data ++ ['\n']))).dispatched
      = ["STOP".data]
    ∧ (UartCommandHandler.runBytes UartCommandHandler.initUart initialDriver
        (List.replicate 2048 'A' ++ ("STOP".data ++ ['\n']))).resps
      = ["ERROR: Buffer overflow\n", "No sequence running\n", "OK\n"] := by
  have hsplit : List.replicate 2048 'A' ++ ("STOP".data ++ ['\n'])
      = List.replicate 2047 'A' ++ 'A' :: ("STOP".data ++ ['\n']) := by
    rw [show (2048 : Nat) = 2047 + 1 from rfl, List.replicate_succ',
      List.append_assoc]
    rfl
  rw [hsplit, runBytes_overlong initialDriver (List.replicate 2047 'A') 'A'
    ("STOP".data ++ ['\n']) (by rw [List.length_replicate]; rfl)
    (by
      intro c hc
      rw [List.eq_of_mem_replicate hc]
      exact ⟨by decide, by decide⟩)]
  exact ⟨by decide, by decide⟩

/-- C3 (amended): for every input line longer than the command buffer
cap, the 2047 bytes that fit never complete a command, the byte that hits
the cap triggers a buffer-overflow protocol error and resets the buffer
index, and from that point the handler behaves exactly as if the stream
had started fresh: the remaining bytes of the overlong line accumulate as
a new line — which may itself be dispatched as a command when the
terminator arrives — and the next valid line after the overlong line's
terminator is parsed and dispatched normally with no residual bytes from
the discarded prefix corrupting it. -/
theorem c3_overflow_error_and_reset (drv : ArrayDriver) (xs : List Char)
    (b : Char) (rest : List Char)
    (hlen : xs.length = UART_CMD_BUFFER_SIZE - 1)
    (hxs : ∀ c ∈ xs, c ≠ '\n' ∧ c ≠ '\r') :
    UartCommandHandler.runBytes UartCommandHandler.initUart drv (xs ++ b :: rest)
      = { UartCommandHandler.runBytes UartCommandHandler.initUart drv rest with
          resps := UartCommandHandler.errText "Buffer overflow"
            :: (UartCommandHandler.runBytes UartCommandHandler.initUart drv
                rest).resps } :=
  runBytes_overlong drv xs b rest hlen hxs

/-- Witness for C3 (amended): an overlong line whose overflowing tail is
the text STOP followed by a newline; the run equals the overflow error
prepended to a fresh run of just that tail. -/
theorem c3_overflow_error_and_reset_witness :
    UartCommandHandler.runBytes UartCommandHandler.initUart initialDriver
        (List.replicate (UART_CMD_BUFFER_SIZE - 1) 'X' ++ 'Y' :: ("STOP\n".data))
      = { UartCommandHandler.runBytes UartCommandHandler.initUart initialDriver
            ("STOP\n".data) with
          resps := UartCommandHandler.errText "Buffer overflow"
            :: (UartCommandHandler.runBytes UartCommandHandler.initUart
                initialDriver ("STOP\n".data)).resps } :=
  c3_overflow_error_and_reset initialDriver
    (List.replicate (UART_CMD_BUFFER_SIZE - 1) 'X') 'Y' ("STOP\n".data)
    (by rw [List.length_replicate])
    (by
      intro c hc
      rw [List.eq_of_mem_replicate hc]
      exact ⟨by decide, by decide⟩)
